/-
  Verification of the aws-tag-report repository (Go) against its
  natural-language specification.

  Shallow embedding: the AWS network boundary is modelled by an explicit
  environment `Env` supplying the pages each paginated call would return;
  the pure logic of the Go source (filtering, recursion, tag extraction,
  report scoring, the driver loop) is translated function by function.
  Possible non-termination of the unguarded recursion in
  `getStackResources` is made explicit with a fuel parameter returning
  `Option` (`none` = the Go program would not have returned yet).
-/
import Mathlib

namespace AwsTagReport

/-! ### Data model (src/aws.go, src/main.go)

`cloudformation.StackResource` carries many fields; the program reads only
`ResourceType`, `PhysicalResourceId` and `StackName`, so the embedding
keeps exactly those. `cloudformation.StackSummary` is read only through
`StackName`, and `servicecatalog.ProvisionedProductAttribute` only through
`Id`. -/

structure StackResource where
  resourceType : String
  physicalResourceId : String
  stackName : String
deriving DecidableEq, Repr

structure StackSummary where
  stackName : String
deriving DecidableEq, Repr

structure ProvisionedProduct where
  id : String
deriving DecidableEq, Repr

/-- The remote side of every paginated call the resolver makes.
`stackPages` are the pages `ListStacks` returns (the status filter is part
of the request, so the pages already honour it); `stackResources` is the
`DescribeStackResources` response for a stack name; `productPages` are the
pages `SearchProvisionedProducts` returns for a given search-query id. -/
structure Env where
  stackPages : List (List StackSummary)
  stackResources : String → List StackResource
  productPages : String → List (List ProvisionedProduct)

/-- Substring test on character lists: does `sub` occur contiguously in
`l`?  (Implements the semantics of Go `strings.Contains`.) -/
def listContainsSub (l sub : List Char) : Bool :=
  sub.isPrefixOf l ||
    match l with
    | [] => false
    | _ :: t => listContainsSub t sub

/-- Go `strings.Contains s sub`: case-sensitive substring test. -/
def strContains (s sub : String) : Bool :=
  listContainsSub s.data sub.data

/-- The page-accumulation loop of `listStacks` (src/aws.go): each page is
filtered by `strings.Contains(*s.StackName, *search)` and appended to the
accumulator, until the continuation token is empty. -/
def listStacksLoop (search : String) :
    List (List StackSummary) → List StackSummary → List StackSummary
  | [], acc => acc
  | page :: rest, acc =>
      listStacksLoop search rest
        (acc ++ page.filter (fun s => strContains s.stackName search))

/-- `listStacks` (src/aws.go): paginated listing filtered by substring. -/
def listStacks (env : Env) (search : String) : List StackSummary :=
  listStacksLoop search env.stackPages []

/-- The page-accumulation loop of `searchProvisionedProducts`
(src/aws.go): pages are appended unfiltered. -/
def searchProductsLoop :
    List (List ProvisionedProduct) → List ProvisionedProduct →
    List ProvisionedProduct
  | [], acc => acc
  | page :: rest, acc => searchProductsLoop rest (acc ++ page)

/-- `searchProvisionedProducts` (src/aws.go): paginated search filtered
server-side by the given id. -/
def searchProvisionedProducts (env : Env) (id : String) :
    List ProvisionedProduct :=
  searchProductsLoop (env.productPages id) []

/-- `describeStackResources` (src/aws.go): a single (non-paginated) call. -/
def describeStackResources (env : Env) (stackName : String) :
    List StackResource :=
  env.stackResources stackName

/-- The resource type that marks an indirection
(`AWS::ServiceCatalog::CloudFormationProduct`, src/aws.go line 19). -/
def indirectionType : String := "AWS::ServiceCatalog::CloudFormationProduct"

/-- Inner loop of `getStackResources` over the provisioned products found
for one indirection resource: each product's `Id` becomes the new search
target of a recursive discovery (`recur`), and the recursively discovered
resources are appended. -/
def goProducts (recur : String → Option (List StackResource)) :
    List ProvisionedProduct → Option (List StackResource)
  | [] => some []
  | p :: rest =>
      match recur p.id with
      | none => none
      | some a =>
          match goProducts recur rest with
          | none => none
          | some b => some (a ++ b)

/-- Loop of `getStackResources` over one stack's described resources: an
indirection resource is expanded through `searchProvisionedProducts` and
never itself appended; any other resource is appended directly. -/
def goResources (recur : String → Option (List StackResource)) (env : Env) :
    List StackResource → Option (List StackResource)
  | [] => some []
  | r :: rest =>
      match
        (if r.resourceType = indirectionType then
          goProducts recur (searchProvisionedProducts env r.physicalResourceId)
        else
          some [r]) with
      | none => none
      | some a =>
          match goResources recur env rest with
          | none => none
          | some b => some (a ++ b)

/-- Outer loop of `getStackResources` over the matched stacks. -/
def goStacks (recur : String → Option (List StackResource)) (env : Env) :
    List StackSummary → Option (List StackResource)
  | [] => some []
  | s :: rest =>
      match goResources recur env (describeStackResources env s.stackName) with
      | none => none
      | some a =>
          match goStacks recur env rest with
          | none => none
          | some b => some (a ++ b)

/-- `getStackResources` (src/aws.go lines 12–29): recursive discovery.
The Go function has no termination guard, so the embedding takes fuel:
`none` means the recursion depth exceeded the fuel, i.e. the Go program
would still be recursing. -/
def getStackResources (env : Env) : Nat → String → Option (List StackResource)
  | 0, _ => none
  | Nat.succ fuel, search =>
      goStacks (fun pid => getStackResources env fuel pid) env
        (listStacks env search)

/-! ### Tag Extraction Engine (the response-handling part of `wrap`)

`wrap` inspects the response by reflection, so responses are embedded as a
deep datatype of reflective Go values: pointers, struct records (ordered
named fields), `map[string]string` fields, and slices of records that
carry `Key`/`Value` string fields (a slice item is read only through those
two fields, so it is embedded as the pair). -/

inductive GoVal where
  | ptr (v : GoVal)
  | record (fields : List (String × GoVal))
  | strMap (entries : List (String × String))
  | slice (items : List (String × String))
  | prim
deriving Repr

/-- Outcome of the extraction part of `wrap`: a tag mapping, the
"unable to cast" error (tag field matched but yielded no entries), the
"tags field not found" error, or a reflection panic (e.g. `Field(0)` on a
record with no fields). -/
inductive ExtractOutcome where
  | tags (m : List (String × String))
  | castError
  | noTagsField
  | invalidShape
deriving DecidableEq, Repr

/-- Go map assignment `m[k] = v`: overwrite if the key is present,
otherwise add the entry. -/
def tagInsert (m : List (String × String)) (k v : String) :
    List (String × String) :=
  if m.any (fun p => p.1 = k) then
    m.map (fun p => if p.1 = k then (k, v) else p)
  else
    m ++ [(k, v)]

/-- Go map lookup `m[k]`. -/
def tagLookup (m : List (String × String)) (k : String) : Option String :=
  (m.find? (fun p => p.1 = k)).map (fun p => p.2)

/-- The fold over a slice-shaped tags field (src/unnamed/part_001 lines
154–159): `tags[key] = value` for each item in order, so a later duplicate
key overwrites an earlier one. -/
def foldSliceTags : List (String × String) → List (String × String) →
    List (String × String)
  | [], tags => tags
  | (k, v) :: rest, tags => foldSliceTags rest (tagInsert tags k v)

/-- The three recognized alias names for "the tags field"
(src/unnamed/part_001 line 143). -/
def tagAliases : List String := ["Tags", "TagSet", "TagList"]

/-- The field scan of `wrap` (src/unnamed/part_001 lines 140–175): walk
the result record's fields in declaration order; at the first field whose
name is a tag alias, return it directly if it is a `map[string]string`
(the type assertion succeeds even when the map is empty); otherwise fold
it as a slice of Key/Value records and fail with the cast error when the
fold produced no entries.  If no alias field exists, fail with the
"tags field not found" error. -/
def scanFields : List (String × GoVal) → ExtractOutcome
  | [] => .noTagsField
  | (name, v) :: rest =>
      if tagAliases.contains name then
        match v with
        | .strMap m => .tags m
        | .slice items =>
            let tags := foldSliceTags items []
            if tags.length > 0 then .tags tags else .castError
        | _ => .castError
      else
        scanFields rest

/-- The pointer-dereferencing loops of `wrap` (`for Kind == Ptr`). -/
def stripPtr : GoVal → GoVal
  | .ptr v => stripPtr v
  | v => v

/-- The wrapper-unwrap step of `wrap` (src/unnamed/part_001 lines
122–138): dereference pointers, rebind to the record's first field
(done once), dereference pointers again. -/
def unwrapResponse (v : GoVal) : Option GoVal :=
  match stripPtr v with
  | .record ((_, payload) :: _) => some (stripPtr payload)
  | _ => none

/-- The full response handling of `wrap`: unwrap, then scan the result
record's fields.  `invalidShape` models the reflection panics Go would
raise on a response that is not a non-empty record wrapping a record. -/
def extractTags (v : GoVal) : ExtractOutcome :=
  match unwrapResponse v with
  | some (.record fields) => scanFields fields
  | _ => .invalidShape

/-- `n` pointer indirections around a value. -/
def ptrN : Nat → GoVal → GoVal
  | 0, v => v
  | n + 1, v => .ptr (ptrN n v)

/-! ### Compliance Scorer / Report rows (src/unnamed/part_000) -/

/-- The legacy ("classic") taxonomy (src/unnamed/part_000 line 16). -/
def classic : List String :=
  ["Name", "BU", "Product", "Repository", "TeamID", "Environment"]

/-- The current ("modern") taxonomy (src/unnamed/part_000 lines 17–18). -/
def modern : List String :=
  ["Name", "rlg:business-unit", "rlg:product", "rlg:application",
   "rlg:repository", "rlg:techdata-team", "rlg:contact", "rlg:environment",
   "rlg:classification", "rlg:compliance"]

/-- Go map membership `_, ok := sample[key]`. -/
def containsKey (sample : List (String × String)) (k : String) : Bool :=
  sample.any (fun p => p.1 = k)

/-- `extractKeys` (src/unnamed/part_000 lines 93–104): walk the required
keys in order, sorting each into `has` or `miss` by membership in the
sample tag map. -/
def extractKeys (sample : List (String × String)) :
    List String → List String × List String
  | [] => ([], [])
  | k :: rest =>
      let p := extractKeys sample rest
      if containsKey sample k then (k :: p.1, p.2) else (p.1, k :: p.2)

/-- `extractType` (src/unnamed/part_000 lines 76–83): short name = third
`::`-separated component when there are more than two components. -/
def extractType (resourceType : String) : String :=
  let split := resourceType.splitOn ("::")
  if split.length > 2 then split[2]! else resourceType

/-- `extractOrigin` (src/unnamed/part_000 lines 85–91). -/
def extractOrigin (stack search : String) : String :=
  if strContains stack search then "PIPELINE" else "CUSTOM"

/-- `fmt.Sprintf("%d%%", n)` for the non-negative counts involved. -/
def pctString (n : Nat) : String := toString n ++ "%"

/-- The row written by `Report.Add` (src/unnamed/part_000 lines 31–49). -/
def addRow (resourceType name stack search : String)
    (tags : List (String × String)) : List String :=
  let hasModern := (extractKeys tags modern).1
  let missModern := (extractKeys tags modern).2
  let hasClassic := (extractKeys tags classic).1
  [search,
   extractType resourceType,
   name,
   String.intercalate (",") hasModern,
   String.intercalate (",") missModern,
   extractOrigin stack search,
   pctString (100 * hasClassic.length / classic.length),
   pctString (100 * hasModern.length / modern.length)]

/-- The row written for resources without tag support
(src/unnamed/part_000 lines 52–66). -/
def notSupportedRow (resourceType name stack search : String) :
    List String :=
  [search, extractType resourceType, name, "", "",
   extractOrigin stack search, "N/A", "N/A"]

/-! ### Driver loop (src/main.go lines 189–231)

The outcome a remote tag lookup would produce is supplied by the
environment (`LookupOutcome`); the driver's classification of that
outcome, the rows and diagnostics it produces, and the buffering/flush
behaviour of the CSV writer are embedded faithfully. -/

/-- `customResource` (src/unnamed/part_000 lines 265–267), also inlined
at src/main.go line 194: Go `strings.HasPrefix(resourceType, "Custom::")`. -/
def customResource (resourceType : String) : Bool :=
  ("Custom::").data.isPrefixOf resourceType.data

/-- `configservice.ErrCodeResourceNotFoundException`. -/
def errCodeResourceNotFound : String := "ResourceNotFoundException"

/-- `glue.ErrCodeEntityNotFoundException`. -/
def errCodeEntityNotFound : String := "EntityNotFoundException"

/-- The error-code test of src/main.go lines 208–211. -/
def skippableCode (code : String) : Bool :=
  code = errCodeResourceNotFound || code = errCodeEntityNotFound

/-- `TagsNotSupportedError.Error()` (src/unnamed/part_001 lines 14–16). -/
def tagsNotSupportedMsg (t : String) : String := t ++ " tags not supported"

/-- `NotImplementedError.Error()` (src/unnamed/part_001 lines 22–24). -/
def notImplementedMsg (t : String) : String := t ++ " resource not implemented"

/-- What a tag lookup returns, as seen by the driver: success with a tag
map; an error satisfying `errors.As(err, &awserr.Error)` with some code
and message; a `*TagsNotSupportedError` (produced by the `nop` adapters);
or any other error (e.g. the extraction errors `wrap` builds with
`fmt.Errorf`). -/
inductive LookupOutcome where
  | success (tags : List (String × String))
  | awsError (code message : String)
  | tagsNotSupported (resourceType : String)
  | otherError (message : String)
deriving DecidableEq, Repr

/-- What one iteration of the driver loop does with a resource: emit a
row and continue (with an optional diagnostic written to stderr, and a
flag recording that the iteration `continue`d before the periodic-flush
check, as the `Custom::` branch does), or panic. -/
inductive StepResult where
  | emit (row : List String) (diag : Option String)
      (skippedFlushCheck : Bool)
  | fatal (diag : String)
deriving DecidableEq, Repr

/-- One iteration of the driver loop of `main` (src/main.go lines
192–226): the `Custom::` check first (no lookup is performed for such
resources), then registry lookup, then classification of the lookup
outcome — success adds a report row; an AWS error with a skippable code,
or a `TagsNotSupportedError`, is logged and recorded as not supported;
any other lookup error panics; a type absent from the registry panics
with `NotImplementedError`. -/
def stepResource (lookups : List String) (search : String)
    (res : StackResource) (outcome : LookupOutcome) : StepResult :=
  if customResource res.resourceType then
    .emit (notSupportedRow res.resourceType res.physicalResourceId
        res.stackName search)
      (some (tagsNotSupportedMsg res.resourceType)) true
  else if lookups.contains res.resourceType then
    match outcome with
    | .success tags =>
        .emit (addRow res.resourceType res.physicalResourceId
          res.stackName search tags) none false
    | .awsError code message =>
        if skippableCode code then
          .emit (notSupportedRow res.resourceType res.physicalResourceId
              res.stackName search)
            (some message) false
        else
          .fatal message
    | .tagsNotSupported t =>
        .emit (notSupportedRow res.resourceType res.physicalResourceId
            res.stackName search)
          (some (tagsNotSupportedMsg t)) false
    | .otherError message => .fatal message
  else
    .fatal (notImplementedMsg res.resourceType)

/-- The header row written by `NewReporter` (src/unnamed/part_000
lines 14–15, 20–29); it sits in the CSV writer's buffer until the first
flush. -/
def headerRow : List String :=
  ["Project", "Type", "Resource Name", "Tags", "Missing Tags",
   "Created By", "Classic Coverage", "Modern Coverage"]

/-- Result of a driver run: the rows actually emitted to stdout (i.e.
flushed — rows still in the CSV writer's buffer when a panic occurs are
lost), the diagnostics written to stderr, and whether the run aborted. -/
structure DriverResult where
  emitted : List (List String)
  diags : List String
  aborted : Bool
deriving DecidableEq, Repr

/-- The resource loop of `main` (src/main.go lines 192–229): `idx` is the
loop index `r`, `buf` the CSV writer's buffer, `flushed` what has reached
stdout.  A normal iteration appends its row to the buffer and flushes
when `r % 1000 == 0` — unless the iteration was the `Custom::` branch,
whose `continue` skips that check.  A panic ends the run with only the
already-flushed rows emitted.  After the loop, `report.Write()` flushes
the remainder. -/
def driverLoop (lookups : List String) (search : String)
    (lookupEnv : StackResource → LookupOutcome) :
    List StackResource → Nat → List (List String) → List (List String) →
    List String → DriverResult
  | [], _, buf, flushed, diags => ⟨flushed ++ buf, diags, false⟩
  | res :: rest, idx, buf, flushed, diags =>
      match stepResource lookups search res (lookupEnv res) with
      | .emit row d skip =>
          if skip = false ∧ idx % 1000 = 0 then
            driverLoop lookups search lookupEnv rest (idx + 1) []
              (flushed ++ (buf ++ [row])) (diags ++ d.toList)
          else
            driverLoop lookups search lookupEnv rest (idx + 1) (buf ++ [row])
              flushed (diags ++ d.toList)
      | .fatal d => ⟨flushed, diags ++ [d], true⟩

/-- A full driver run over a discovered resource sequence, starting with
the header row buffered and index 0. -/
def runDriver (lookups : List String) (search : String)
    (lookupEnv : StackResource → LookupOutcome)
    (resources : List StackResource) : DriverResult :=
  driverLoop lookups search lookupEnv resources 0 [headerRow] [] []

/-- The keys of the lookup registry built in `main` (src/main.go lines
68–188): types mapped to a `wrap` adapter or to a `nop` sentinel. -/
def registryTypes : List String :=
  ["AWS::Lambda::Function", "AWS::SSM::Parameter",
   "AWS::ServiceCatalog::CloudFormationProduct",
   "AWS::ServiceCatalog::Portfolio", "AWS::S3::Bucket", "AWS::IAM::Role",
   "AWS::SNS::Topic", "AWS::EC2::LaunchTemplate", "AWS::EC2::RouteTable",
   "AWS::EC2::SecurityGroup", "AWS::EC2::Subnet", "AWS::EC2::VPC",
   "AWS::Glue::Crawler", "AWS::Glue::Job", "AWS::Glue::Trigger",
   "AWS::DynamoDB::Table", "AWS::KinesisFirehose::DeliveryStream",
   "AWS::Logs::LogGroup", "AWS::Cloudwatch::Alarm", "AWS::Events::Rule",
   "AWS::Config::ConfigRule", "AWS::KMS::Key", "AWS::Lambda::Permission",
   "AWS::ServiceCatalog::LaunchRoleConstraint",
   "AWS::ServiceCatalog::PortfolioPrincipalAssociation",
   "AWS::ServiceCatalog::PortfolioProductAssociation",
   "AWS::ServiceCatalog::TagOptionAssociation",
   "AWS::ServiceCatalog::TagOption", "AWS::S3::BucketPolicy",
   "AWS::IAM::InstanceProfile", "AWS::IAM::Policy",
   "AWS::SNS::Subscription", "AWS::SNS::TopicPolicy",
   "AWS::EC2::VPCEndpoint", "AWS::EC2::SubnetRouteTableAssociation",
   "AWS::EC2::SecurityGroupIngress", "AWS::Glue::Database",
   "AWS::Glue::SecurityConfiguration", "AWS::Batch::JobDefinition",
   "AWS::Batch::JobQueue", "AWS::Batch::ComputeEnvironment",
   "AWS::Logs::LogStream", "AWS::CloudFormation::Macro"]

/-! ### Concrete environments used in the scenario parts of the claims -/

/-- A plain nested-stack resource. -/
def bucketRes : StackResource := ⟨"AWS::S3::Bucket", "b1", "SC-pp1"⟩

/-- A plain nested-stack resource. -/
def roleRes : StackResource := ⟨"AWS::IAM::Role", "r1", "SC-pp1"⟩

/-- A plain nested-stack resource. -/
def topicRes : StackResource := ⟨"AWS::SNS::Topic", "t1", "SC-pp1"⟩

/-- The indirection resource of the top-level stack: its physical id
resolves (via the provisioned-product search) to product `pp1`, whose
stack is `SC-pp1`. -/
def indirectionRes : StackResource := ⟨indirectionType, "prod-a", "app-pipe"⟩

/-- A plain top-level-stack resource placed before the indirection. -/
def paramRes : StackResource := ⟨"AWS::SSM::Parameter", "pa", "app-pipe"⟩

/-- A plain top-level-stack resource placed after the indirection. -/
def keyRes : StackResource := ⟨"AWS::KMS::Key", "pb", "app-pipe"⟩

/-- Environment for the indirection-expansion scenario: one top-level
stack `app-pipe` (matching search term `pipe`) whose only resource is an
indirection resolving to nested stack `SC-pp1` with 3 plain resources. -/
def envNested : Env where
  stackPages := [[⟨"app-pipe"⟩, ⟨"SC-pp1"⟩]]
  stackResources := fun n =>
    if n = "app-pipe" then [indirectionRes]
    else if n = "SC-pp1" then [bucketRes, roleRes, topicRes]
    else []
  productPages := fun id => if id = "prod-a" then [[⟨"pp1"⟩]] else [[]]

/-- Environment like `envNested` but with plain resources before and
after the indirection, exhibiting depth-first in-place expansion. -/
def envInPlace : Env where
  stackPages := [[⟨"app-pipe"⟩, ⟨"SC-pp1"⟩]]
  stackResources := fun n =>
    if n = "app-pipe" then [paramRes, indirectionRes, keyRes]
    else if n = "SC-pp1" then [bucketRes, roleRes, topicRes]
    else []
  productPages := fun id => if id = "prod-a" then [[⟨"pp1"⟩]] else [[]]

/-! ### Helper lemmas -/

/-- No resource of the indirection type survives the product loop,
provided the recursive discovery it delegates to has that property. -/
theorem goProducts_noInd (recur : String → Option (List StackResource))
    (hrec : ∀ pid res, recur pid = some res →
      ∀ r ∈ res, r.resourceType ≠ indirectionType) :
    ∀ ps res, goProducts recur ps = some res →
      ∀ r ∈ res, r.resourceType ≠ indirectionType := by
  intro ps
  induction ps with
  | nil =>
      intro res h r hr
      simp only [goProducts, Option.some.injEq] at h
      subst h
      simp at hr
  | cons p rest ih =>
      intro res h r hr
      simp only [goProducts] at h
      cases h1 : recur p.id with
      | none => rw [h1] at h; simp at h
      | some a =>
          rw [h1] at h
          cases h2 : goProducts recur rest with
          | none => rw [h2] at h; simp at h
          | some b =>
              rw [h2] at h
              simp only [Option.some.injEq] at h
              subst h
              rcases List.mem_append.mp hr with hra | hrb
              · exact hrec p.id a h1 r hra
              · exact ih b h2 r hrb

/-- No resource of the indirection type survives the per-stack resource
loop: indirections are expanded, everything else is appended as-is. -/
theorem goResources_noInd (recur : String → Option (List StackResource))
    (env : Env)
    (hrec : ∀ pid res, recur pid = some res →
      ∀ r ∈ res, r.resourceType ≠ indirectionType) :
    ∀ rs res, goResources recur env rs = some res →
      ∀ r ∈ res, r.resourceType ≠ indirectionType := by
  intro rs
  induction rs with
  | nil =>
      intro res h r hr
      simp only [goResources, Option.some.injEq] at h
      subst h
      simp at hr
  | cons x rest ih =>
      intro res h r hr
      simp only [goResources] at h
      by_cases hx : x.resourceType = indirectionType
      · rw [if_pos hx] at h
        cases h1 : goProducts recur
            (searchProvisionedProducts env x.physicalResourceId) with
        | none => rw [h1] at h; simp at h
        | some a =>
            rw [h1] at h
            cases h2 : goResources recur env rest with
            | none => rw [h2] at h; simp at h
            | some b =>
                rw [h2] at h
                simp only [Option.some.injEq] at h
                subst h
                rcases List.mem_append.mp hr with hra | hrb
                · exact goProducts_noInd recur hrec _ a h1 r hra
                · exact ih b h2 r hrb
      · rw [if_neg hx] at h
        cases h2 : goResources recur env rest with
        | none => rw [h2] at h; simp at h
        | some b =>
            rw [h2] at h
            simp only [Option.some.injEq] at h
            subst h
            rcases List.mem_append.mp hr with hra | hrb
            · rw [List.mem_singleton.mp hra]; exact hx
            · exact ih b h2 r hrb

/-- No resource of the indirection type survives the stack loop. -/
theorem goStacks_noInd (recur : String → Option (List StackResource))
    (env : Env)
    (hrec : ∀ pid res, recur pid = some res →
      ∀ r ∈ res, r.resourceType ≠ indirectionType) :
    ∀ ss res, goStacks recur env ss = some res →
      ∀ r ∈ res, r.resourceType ≠ indirectionType := by
  intro ss
  induction ss with
  | nil =>
      intro res h r hr
      simp only [goStacks, Option.some.injEq] at h
      subst h
      simp at hr
  | cons s rest ih =>
      intro res h r hr
      simp only [goStacks] at h
      cases h1 : goResources recur env (describeStackResources env s.stackName)
          with
      | none => rw [h1] at h; simp at h
      | some a =>
          rw [h1] at h
          cases h2 : goStacks recur env rest with
          | none => rw [h2] at h; simp at h
          | some b =>
              rw [h2] at h
              simp only [Option.some.injEq] at h
              subst h
              rcases List.mem_append.mp hr with hra | hrb
              · exact goResources_noInd recur env hrec _ a h1 r hra
              · exact ih b h2 r hrb

/-- Discovery (at any fuel) never returns a resource of the indirection
type. -/
theorem getStackResources_noInd :
    ∀ (fuel : Nat) (env : Env) (search : String) (res : List StackResource),
      getStackResources env fuel search = some res →
      ∀ r ∈ res, r.resourceType ≠ indirectionType := by
  intro fuel
  induction fuel with
  | zero => intro env search res h; simp [getStackResources] at h
  | succ n ih =>
      intro env search res h
      exact goStacks_noInd _ env (fun pid res' h' => ih env pid res' h') _ res h

/-- The stack-listing loop is the filter of the concatenation of the
pages, appended to the accumulator. -/
theorem listStacksLoop_eq (search : String) :
    ∀ (pages : List (List StackSummary)) (acc : List StackSummary),
      listStacksLoop search pages acc =
        acc ++ pages.flatten.filter
          (fun s => strContains s.stackName search) := by
  intro pages
  induction pages with
  | nil => intro acc; simp [listStacksLoop]
  | cons page rest ih =>
      intro acc
      simp [listStacksLoop, ih, List.filter_append, List.append_assoc]

/-- Membership in the two lists `extractKeys` produces is membership in
the required list refined by sample-map membership. -/
theorem extractKeys_mem (sample : List (String × String)) :
    ∀ (req : List String) (k : String),
      (k ∈ (extractKeys sample req).1 ↔
        k ∈ req ∧ containsKey sample k = true)
      ∧ (k ∈ (extractKeys sample req).2 ↔
        k ∈ req ∧ containsKey sample k = false) := by
  intro req
  induction req with
  | nil => intro k; simp [extractKeys]
  | cons a rest ih =>
      intro k
      by_cases hk : k = a
      · subst hk
        cases h : containsKey sample k with
        | false => simp [extractKeys, h, List.mem_cons, (ih k).1, (ih k).2]
        | true => simp [extractKeys, h, List.mem_cons, (ih k).1, (ih k).2]
      · cases h : containsKey sample a with
        | false =>
            simp [extractKeys, h, List.mem_cons, (ih k).1, (ih k).2, hk]
        | true =>
            simp [extractKeys, h, List.mem_cons, (ih k).1, (ih k).2, hk]

/-- The present list is never longer than the required list. -/
theorem extractKeys_has_length_le (sample : List (String × String)) :
    ∀ (req : List String),
      (extractKeys sample req).1.length ≤ req.length := by
  intro req
  induction req with
  | nil => simp [extractKeys]
  | cons a rest ih =>
      cases h : containsKey sample a with
      | false =>
          simp only [extractKeys, h, Bool.false_eq_true, if_false,
            List.length_cons]
          exact Nat.le_succ_of_le ih
      | true =>
          simp only [extractKeys, h, if_true, List.length_cons]
          exact Nat.succ_le_succ ih

/-- When the key is already present, `tagInsert` overwrites in place. -/
theorem tagInsert_of_any_true (m : List (String × String)) (k v : String)
    (h : m.any (fun p => p.1 = k) = true) :
    tagInsert m k v = m.map (fun p => if p.1 = k then (k, v) else p) := by
  simp only [tagInsert, h, if_true]

/-- When the key is absent, `tagInsert` appends the new entry. -/
theorem tagInsert_of_any_false (m : List (String × String)) (k v : String)
    (h : m.any (fun p => p.1 = k) = false) :
    tagInsert m k v = m ++ [(k, v)] := by
  simp only [tagInsert, h, Bool.false_eq_true, if_false]

/-- Head-step unfolding of the Go-map lookup. -/
theorem tagLookup_cons (q : String × String) (t : List (String × String))
    (k : String) :
    tagLookup (q :: t) k = if q.1 = k then some q.2 else tagLookup t k := by
  by_cases h : q.1 = k
  · simp [tagLookup, List.find?_cons_of_pos, h]
  · simp [tagLookup, List.find?_cons_of_neg, h]

/-- Looking up the just-assigned key returns the just-assigned value. -/
theorem tagLookup_tagInsert_self :
    ∀ (m : List (String × String)) (k v : String),
      tagLookup (tagInsert m k v) k = some v := by
  intro m
  induction m with
  | nil =>
      intro k v
      rw [tagInsert_of_any_false _ _ _ (by simp)]
      simp [tagLookup]
  | cons p rest ih =>
      intro k v
      by_cases hp : p.1 = k
      · rw [tagInsert_of_any_true _ _ _ (by simp [List.any_cons, hp])]
        simp [List.map_cons, hp, tagLookup_cons]
      · cases h : rest.any (fun q => q.1 = k) with
        | true =>
            rw [tagInsert_of_any_true _ _ _ (by simp [List.any_cons, h])]
            have := ih k v
            rw [tagInsert_of_any_true _ _ _ h] at this
            simpa [List.map_cons, hp, tagLookup_cons] using this
        | false =>
            rw [tagInsert_of_any_false _ _ _ (by simp [List.any_cons, hp, h])]
            have := ih k v
            rw [tagInsert_of_any_false _ _ _ h] at this
            simpa [List.cons_append, hp, tagLookup_cons] using this

/-- Folding a concatenation folds the two parts in sequence. -/
theorem foldSliceTags_append :
    ∀ (l1 l2 acc : List (String × String)),
      foldSliceTags (l1 ++ l2) acc =
        foldSliceTags l2 (foldSliceTags l1 acc) := by
  intro l1
  induction l1 with
  | nil => intro l2 acc; rfl
  | cons p rest ih =>
      intro l2 acc
      cases p with
      | mk k v => simp only [List.cons_append, foldSliceTags]; exact ih _ _

/-- `tagInsert` never shrinks the map. -/
theorem tagInsert_length_le (m : List (String × String)) (k v : String) :
    m.length ≤ (tagInsert m k v).length := by
  cases h : m.any (fun p => p.1 = k) with
  | true => rw [tagInsert_of_any_true _ _ _ h, List.length_map]
  | false =>
      rw [tagInsert_of_any_false _ _ _ h, List.length_append]
      exact Nat.le_add_right _ _

/-- The slice fold never shrinks the accumulated map. -/
theorem foldSliceTags_length_le :
    ∀ (l acc : List (String × String)),
      acc.length ≤ (foldSliceTags l acc).length := by
  intro l
  induction l with
  | nil => intro acc; exact Nat.le_refl _
  | cons p rest ih =>
      intro acc
      cases p with
      | mk k v =>
          calc acc.length ≤ (tagInsert acc k v).length :=
                tagInsert_length_le acc k v
            _ ≤ _ := ih (tagInsert acc k v)

/-- Stripping pointers ignores any number of added indirections. -/
theorem stripPtr_ptrN : ∀ (n : Nat) (v : GoVal),
    stripPtr (ptrN n v) = stripPtr v := by
  intro n
  induction n with
  | zero => intro v; rfl
  | succ m ih => intro v; rw [ptrN, stripPtr]; exact ih v

/-- A response wrapping a map-shaped tags field extracts to that map,
whatever the wrapper field is called. -/
theorem extractTags_map_resp (wname : String) (m : List (String × String)) :
    extractTags (.record [(wname, .record [(("Tags" : String),
      GoVal.strMap m)])]) = .tags m := rfl

/-- A response wrapping a slice-shaped tags field extracts to the fold of
the slice when that fold is nonempty, and to the cast error otherwise. -/
theorem extractTags_slice_resp (wname : String)
    (l : List (String × String)) :
    extractTags (.record [(wname, .record [(("Tags" : String),
      GoVal.slice l)])]) =
      if (foldSliceTags l []).length > 0 then .tags (foldSliceTags l [])
      else .castError := rfl

/-! ### The claims -/

/-- C1: discovery never appends an indirection resource itself — every
resource in any terminating discovery result has a type other than the
indirection type — and, concretely, a stack whose sole resource is an
indirection resolving to a nested stack with 3 plain resources yields
exactly those 3 resources; with plain resources around the indirection,
the expansion is spliced in depth-first, in place. -/
theorem C1_indirection_expansion :
    (∀ (env : Env) (fuel : Nat) (search : String) (res : List StackResource),
        getStackResources env fuel search = some res →
        ∀ r ∈ res, r.resourceType ≠ indirectionType)
    ∧ getStackResources envNested 2 ("pipe") =
        some [bucketRes, roleRes, topicRes]
    ∧ getStackResources envInPlace 2 ("pipe") =
        some [paramRes, bucketRes, roleRes, topicRes, keyRes] := by
  refine ⟨?_, by decide, by decide⟩
  intro env fuel search res h
  exact getStackResources_noInd fuel env search res h

/-- C1 witness: the first resource of the concrete expansion is not of
the indirection type. -/
theorem C1_indirection_expansion_witness :
    bucketRes.resourceType ≠ indirectionType :=
  C1_indirection_expansion.1 envNested 2 ("pipe")
    [bucketRes, roleRes, topicRes] (by decide) bucketRes (by decide)

/-- C6: the stack-listing step returns exactly the summaries whose name
contains the search term as a case-sensitive substring, in page order
(the filter of the concatenated pages), so the result is independent of
how the summaries are split across pages: a {2,2,1} split yields the same
result as a single page of 5. -/
theorem C6_listStacks_pagination :
    (∀ (env : Env) (search : String),
        listStacks env search =
          env.stackPages.flatten.filter
            (fun s => strContains s.stackName search))
    ∧ (∀ (a b c d e : StackSummary) (search : String)
          (sr : String → List StackResource)
          (pp : String → List (List ProvisionedProduct)),
        listStacks ⟨[[a, b], [c, d], [e]], sr, pp⟩ search =
          listStacks ⟨[[a, b, c, d, e]], sr, pp⟩ search) := by
  constructor
  · intro env search
    simpa using listStacksLoop_eq search env.stackPages []
  · intro a b c d e search sr pp
    show listStacksLoop search [[a, b], [c, d], [e]] [] =
      listStacksLoop search [[a, b, c, d, e]] []
    rw [listStacksLoop_eq, listStacksLoop_eq]
    simp

/-- C10: the origin column reads "PIPELINE" exactly when the owning
stack's name contains the driver's search term case-sensitively, and
"CUSTOM" otherwise; both report-row shapes place that classification in
column 5; and in the concrete indirection scenario the nested-stack
resources — discovered from a matched stack but owned by a stack matched
against a provisioned-product id — classify as "CUSTOM" because their
stack name does not contain the original term. -/
theorem C10_origin_classification :
    (∀ (stack search : String),
        (extractOrigin stack search = "PIPELINE" ↔
          strContains stack search = true)
        ∧ (extractOrigin stack search = "CUSTOM" ↔
          strContains stack search = false))
    ∧ (∀ (t n stack search : String) (tags : List (String × String)),
        (addRow t n stack search tags).get? 5 =
          some (extractOrigin stack search)
        ∧ (notSupportedRow t n stack search).get? 5 =
          some (extractOrigin stack search))
    ∧ getStackResources envNested 2 ("pipe") =
        some [bucketRes, roleRes, topicRes]
    ∧ extractOrigin bucketRes.stackName ("pipe") = "CUSTOM"
    ∧ strContains ("app-pipe") ("pipe") = true := by
  refine ⟨?_, fun t n stack search tags => ⟨rfl, rfl⟩, by decide, by decide,
    by decide⟩
  intro stack search
  cases h : strContains stack search with
  | true => simp [extractOrigin, h]
  | false => simp [extractOrigin, h]

/-- C8: scoring against the current taxonomy partitions it — each modern
taxonomy key lands in exactly one of the present/missing lists `Report.Add`
derives through `extractKeys`: the union of the two lists is the taxonomy
and they are disjoint. -/
theorem C8_taxonomy_partition :
    ∀ (tags : List (String × String)) (k : String),
      (k ∈ modern ↔
        (k ∈ (extractKeys tags modern).1 ∨ k ∈ (extractKeys tags modern).2))
      ∧ ¬(k ∈ (extractKeys tags modern).1 ∧
          k ∈ (extractKeys tags modern).2) := by
  intro tags k
  have h1 := (extractKeys_mem tags modern k).1
  have h2 := (extractKeys_mem tags modern k).2
  constructor
  · rw [h1, h2]
    cases h : containsKey tags k with
    | true => simp [h]
    | false => simp [h]
  · rintro ⟨ha, hb⟩
    rw [h1] at ha
    rw [h2] at hb
    rw [ha.2] at hb
    exact absurd hb.2 (by simp)

/-- C8 witness: the partition at a concrete TagSet and taxonomy key. -/
theorem C8_taxonomy_partition_witness :
    (("Name" : String) ∈ modern ↔
      (("Name" : String) ∈ (extractKeys [(("Name" : String),
          ("x" : String))] modern).1 ∨
        ("Name" : String) ∈ (extractKeys [(("Name" : String),
          ("x" : String))] modern).2))
    ∧ ¬(("Name" : String) ∈ (extractKeys [(("Name" : String),
          ("x" : String))] modern).1 ∧
        ("Name" : String) ∈ (extractKeys [(("Name" : String),
          ("x" : String))] modern).2) :=
  C8_taxonomy_partition [(("Name" : String), ("x" : String))] ("Name")

/-- C9: the two coverage cells of a successful report row are
`100 * |present| / |taxonomy|` in integer division, over the legacy
taxonomy of 6 keys and the current taxonomy of 10; each percentage is at
most 100 (and at least 0, being a natural number), and is monotonically
non-decreasing in the number of present taxonomy keys. -/
theorem C9_coverage_percentages :
    ∀ (t n stack search : String) (tags : List (String × String)),
      (addRow t n stack search tags).get? 6 =
        some (pctString (100 * (extractKeys tags classic).1.length /
          classic.length))
      ∧ (addRow t n stack search tags).get? 7 =
        some (pctString (100 * (extractKeys tags modern).1.length /
          modern.length))
      ∧ classic.length = 6
      ∧ modern.length = 10
      ∧ 100 * (extractKeys tags classic).1.length / classic.length ≤ 100
      ∧ 100 * (extractKeys tags modern).1.length / modern.length ≤ 100
      ∧ (∀ (a b : Nat), a ≤ b →
          100 * a / classic.length ≤ 100 * b / classic.length
          ∧ 100 * a / modern.length ≤ 100 * b / modern.length) := by
  intro t n stack search tags
  refine ⟨rfl, rfl, rfl, rfl, ?_, ?_, ?_⟩
  · calc 100 * (extractKeys tags classic).1.length / classic.length
        ≤ 100 * classic.length / classic.length :=
          Nat.div_le_div_right
            (Nat.mul_le_mul_left 100 (extractKeys_has_length_le tags classic))
      _ = 100 := by decide
  · calc 100 * (extractKeys tags modern).1.length / modern.length
        ≤ 100 * modern.length / modern.length :=
          Nat.div_le_div_right
            (Nat.mul_le_mul_left 100 (extractKeys_has_length_le tags modern))
      _ = 100 := by decide
  · intro a b hab
    exact ⟨Nat.div_le_div_right (Nat.mul_le_mul_left 100 hab),
      Nat.div_le_div_right (Nat.mul_le_mul_left 100 hab)⟩

/-- C9 witness: monotonicity applied at 1 ≤ 2 present keys. -/
theorem C9_coverage_percentages_witness :
    100 * 1 / classic.length ≤ 100 * 2 / classic.length
    ∧ 100 * 1 / modern.length ≤ 100 * 2 / modern.length :=
  (C9_coverage_percentages ("t") ("n") ("s") ("q") []).2.2.2.2.2.2
    1 2 (by decide)

/-- C2: driver classification of lookup outcomes.  For a non-custom
resource whose type is in the registry, the iteration continues — emitting
a row, with the periodic flush check reached — exactly when the lookup
succeeded or failed skippably (an AWS error coded
ResourceNotFoundException or EntityNotFoundException, or a
TagsNotSupportedError); each skippable failure is logged to stderr and
recorded as a not-supported row; any other lookup failure panics; a type
absent from the registry panics with NotImplementedError; and a panicking
iteration ends the run emitting exactly the rows already flushed (rows
still buffered are lost), while an emitting iteration proceeds to the
next resource. -/
theorem C2_driver_error_classification :
    (∀ (lookups : List String) (search : String) (res : StackResource)
        (outcome : LookupOutcome),
        customResource res.resourceType = false →
        lookups.contains res.resourceType = true →
        ((∃ row diag, stepResource lookups search res outcome =
            .emit row diag false) ↔
          (match outcome with
            | .success _ => True
            | .awsError code _ => skippableCode code = true
            | .tagsNotSupported _ => True
            | .otherError _ => False)))
    ∧ (∀ (lookups : List String) (search : String) (res : StackResource)
        (code message : String),
        customResource res.resourceType = false →
        lookups.contains res.resourceType = true →
        skippableCode code = true →
        stepResource lookups search res (.awsError code message) =
          .emit (notSupportedRow res.resourceType res.physicalResourceId
              res.stackName search)
            (some message) false)
    ∧ (∀ (lookups : List String) (search : String) (res : StackResource)
        (t : String),
        customResource res.resourceType = false →
        lookups.contains res.resourceType = true →
        stepResource lookups search res (.tagsNotSupported t) =
          .emit (notSupportedRow res.resourceType res.physicalResourceId
              res.stackName search)
            (some (tagsNotSupportedMsg t)) false)
    ∧ (∀ (lookups : List String) (search : String) (res : StackResource)
        (code message : String),
        customResource res.resourceType = false →
        lookups.contains res.resourceType = true →
        skippableCode code = false →
        stepResource lookups search res (.awsError code message) =
          .fatal message)
    ∧ (∀ (lookups : List String) (search : String) (res : StackResource)
        (message : String),
        customResource res.resourceType = false →
        lookups.contains res.resourceType = true →
        stepResource lookups search res (.otherError message) =
          .fatal message)
    ∧ (∀ (lookups : List String) (search : String) (res : StackResource)
        (outcome : LookupOutcome),
        customResource res.resourceType = false →
        lookups.contains res.resourceType = false →
        stepResource lookups search res outcome =
          .fatal (notImplementedMsg res.resourceType))
    ∧ (∀ (lookups : List String) (search : String)
        (lookupEnv : StackResource → LookupOutcome) (res : StackResource)
        (rest : List StackResource) (idx : Nat)
        (buf flushed : List (List String)) (diags : List String)
        (d : String),
        stepResource lookups search res (lookupEnv res) = .fatal d →
        driverLoop lookups search lookupEnv (res :: rest) idx buf flushed
          diags = ⟨flushed, diags ++ [d], true⟩)
    ∧ (∀ (lookups : List String) (search : String)
        (lookupEnv : StackResource → LookupOutcome) (res : StackResource)
        (rest : List StackResource) (idx : Nat)
        (buf flushed : List (List String)) (diags : List String)
        (row : List String) (dg : Option String) (sk : Bool),
        stepResource lookups search res (lookupEnv res) = .emit row dg sk →
        ∃ buf' flushed',
          driverLoop lookups search lookupEnv (res :: rest) idx buf flushed
            diags =
          driverLoop lookups search lookupEnv rest (idx + 1) buf' flushed'
            (diags ++ dg.toList)) := by
  refine ⟨?_, ?_, ?_, ?_, ?_, ?_, ?_, ?_⟩
  · intro lookups search res outcome hc hl
    have hm : res.resourceType ∈ lookups := by simpa using hl
    cases outcome with
    | success tags => simp [stepResource, hc, hm]
    | awsError code message =>
        cases hsk : skippableCode code with
        | true => simp [stepResource, hc, hm, hsk]
        | false => simp [stepResource, hc, hm, hsk]
    | tagsNotSupported t => simp [stepResource, hc, hm]
    | otherError message => simp [stepResource, hc, hm]
  · intro lookups search res code message hc hl hsk
    have hm : res.resourceType ∈ lookups := by simpa using hl
    simp [stepResource, hc, hm, hsk]
  · intro lookups search res t hc hl
    have hm : res.resourceType ∈ lookups := by simpa using hl
    simp [stepResource, hc, hm]
  · intro lookups search res code message hc hl hsk
    have hm : res.resourceType ∈ lookups := by simpa using hl
    simp [stepResource, hc, hm, hsk]
  · intro lookups search res message hc hl
    have hm : res.resourceType ∈ lookups := by simpa using hl
    simp [stepResource, hc, hm]
  · intro lookups search res outcome hc hl
    have hm : res.resourceType ∉ lookups := by simpa using hl
    simp [stepResource, hc, hm]
  · intro lookups search lookupEnv res rest idx buf flushed diags d h
    simp only [driverLoop, h]
  · intro lookups search lookupEnv res rest idx buf flushed diags row dg sk h
    by_cases hf : sk = false ∧ idx % 1000 = 0
    · refine ⟨[], flushed ++ (buf ++ [row]), ?_⟩
      simp only [driverLoop, h]
      rw [if_pos hf]
    · refine ⟨buf ++ [row], flushed, ?_⟩
      simp only [driverLoop, h]
      rw [if_neg hf]

/-- C2 witness: a resource type absent from the registry makes the
iteration panic with NotImplementedError. -/
theorem C2_driver_error_classification_witness :
    stepResource [] ("q") ⟨"AWS::Foo::Bar", "p1", "s1"⟩ (.success []) =
      .fatal (notImplementedMsg ("AWS::Foo::Bar")) :=
  C2_driver_error_classification.2.2.2.2.2.1 [] ("q")
    ⟨"AWS::Foo::Bar", "p1", "s1"⟩ (.success []) (by decide) (by decide)

/-- C7: a `Custom::`-prefixed resource type short-circuits the driver
iteration before any registry consultation or tag lookup: uniformly in
the registry contents and in whatever a lookup would have produced, the
iteration logs a TagsNotSupportedError and records a not-supported row
(and its `continue` skips the periodic flush check). -/
theorem C7_custom_resources_skipped :
    ∀ (lookups : List String) (search : String) (res : StackResource)
      (outcome : LookupOutcome),
      customResource res.resourceType = true →
      stepResource lookups search res outcome =
        .emit (notSupportedRow res.resourceType res.physicalResourceId
            res.stackName search)
          (some (tagsNotSupportedMsg res.resourceType)) true := by
  intro lookups search res outcome h
  simp [stepResource, h]

/-- C7 witness: concrete custom resource, with a registry that even
contains the type and a lookup that would have failed fatally — neither
is consulted. -/
theorem C7_custom_resources_skipped_witness :
    stepResource ["Custom::Widget"] ("q") ⟨"Custom::Widget", "w1", "sA"⟩
        (.otherError ("boom")) =
      .emit (notSupportedRow ("Custom::Widget") ("w1") ("sA") ("q"))
        (some (tagsNotSupportedMsg ("Custom::Widget"))) true :=
  C7_custom_resources_skipped ["Custom::Widget"] ("q")
    ⟨"Custom::Widget", "w1", "sA"⟩ (.otherError ("boom")) (by decide)

/-- C3 counterexample: the empty tag collection refutes unconditional
shape invariance.  As a direct (empty) mapping the matched field passes
the `map[string]string` type assertion and extraction succeeds with the
empty TagSet, while as the semantically equivalent empty list of
Key/Value records the fold yields zero entries and extraction returns the
cast error — the two shapes do not extract to identical TagSets. -/
theorem C3_extraction_shape_invariant_counterexample :
    extractTags (.record [(("Output" : String),
        .record [(("Tags" : String), GoVal.strMap [])])]) = .tags []
    ∧ extractTags (.record [(("Output" : String),
        .record [(("Tags" : String), GoVal.slice [])])]) = .castError
    ∧ extractTags (.record [(("Output" : String),
        .record [(("Tags" : String), GoVal.strMap [])])]) ≠
      extractTags (.record [(("Output" : String),
        .record [(("Tags" : String), GoVal.slice [])])]) := by
  refine ⟨rfl, rfl, by decide⟩

/-- C3 (amended): for a nonempty tag collection, extraction is
shape-invariant — a response carrying the collection as a direct mapping
and one carrying a semantically equivalent ordered list of Key/Value
records (equivalent meaning the in-order fold of the list, in which a
later duplicate key overwrites an earlier one, agrees with the mapping on
every key lookup) extract successfully to TagSets that agree on every
key; and the fold indeed lets a later duplicate overwrite: after folding
`l ++ [(k, v)]`, key `k` maps to `v`. -/
theorem C3_extraction_shape_invariant :
    (∀ (wname : String) (m l : List (String × String)),
        l ≠ [] →
        (∀ k, tagLookup m k = tagLookup (foldSliceTags l []) k) →
        ∃ tm tl,
          extractTags (.record [(wname, .record [(("Tags" : String),
            GoVal.strMap m)])]) = .tags tm
          ∧ extractTags (.record [(wname, .record [(("Tags" : String),
            GoVal.slice l)])]) = .tags tl
          ∧ ∀ k, tagLookup tm k = tagLookup tl k)
    ∧ (∀ (l acc : List (String × String)) (k v : String),
        tagLookup (foldSliceTags (l ++ [(k, v)]) acc) k = some v) := by
  constructor
  · intro wname m l hl heq
    refine ⟨m, foldSliceTags l [], extractTags_map_resp wname m, ?_, heq⟩
    have hlen : 0 < (foldSliceTags l []).length := by
      cases l with
      | nil => exact absurd rfl hl
      | cons p rest =>
          cases p with
          | mk k v =>
              have h1 := foldSliceTags_length_le rest (tagInsert [] k v)
              have h2 : (tagInsert [] k v).length = 1 := rfl
              have : (1 : Nat) ≤ (foldSliceTags ((k, v) :: rest) []).length := by
                rw [show foldSliceTags ((k, v) :: rest) [] =
                  foldSliceTags rest (tagInsert [] k v) from rfl]
                omega
              omega
    rw [extractTags_slice_resp, if_pos hlen]
  · intro l acc k v
    rw [foldSliceTags_append]
    exact tagLookup_tagInsert_self _ k v

/-- C3 witness: shape invariance at the one-entry collection, in both its
map shape and its list shape. -/
theorem C3_extraction_shape_invariant_witness :
    ∃ tm tl,
      extractTags (.record [(("Output" : String),
        .record [(("Tags" : String),
          GoVal.strMap [(("a" : String), ("1" : String))])])]) = .tags tm
      ∧ extractTags (.record [(("Output" : String),
        .record [(("Tags" : String),
          GoVal.slice [(("a" : String), ("1" : String))])])]) = .tags tl
      ∧ ∀ k, tagLookup tm k = tagLookup tl k :=
  C3_extraction_shape_invariant.1 ("Output")
    [(("a" : String), ("1" : String))] [(("a" : String), ("1" : String))]
    (by decide) (fun k => rfl)

/-- C4 counterexample: a response whose matched tags field yields zero
entries — as an empty direct mapping, with no other alias field present —
extracts successfully to the empty TagSet instead of returning an error:
the `map[string]string` type assertion succeeds even on an empty map. -/
theorem C4_empty_tags_error_counterexample :
    extractTags (.record [(("Output" : String),
        .record [(("Tags" : String), GoVal.strMap [])])]) = .tags []
    ∧ ExtractOutcome.tags [] ≠ .castError
    ∧ ExtractOutcome.tags [] ≠ .noTagsField := by
  refine ⟨rfl, by decide, by decide⟩

/-- C4 (amended): when the matched tags field is not a direct mapping but
the list shape (here: a slice yielding zero entries) and the fields
before it carry no alias name, extraction fails with the cast error
("tag collection present but empty/unreadable") rather than returning an
empty TagSet; a matched direct mapping, by contrast, is returned as-is
even when empty. -/
theorem C4_empty_tags_error :
    (∀ (pre post : List (String × GoVal)) (wname name : String),
        tagAliases.contains name = true →
        (∀ f ∈ pre, tagAliases.contains f.1 = false) →
        extractTags (.record [(wname,
          .record (pre ++ (name, GoVal.slice []) :: post))]) = .castError)
    ∧ (∀ (wname : String) (m : List (String × String)),
        extractTags (.record [(wname, .record [(("Tags" : String),
          GoVal.strMap m)])]) = .tags m) := by
  constructor
  · intro pre
    induction pre with
    | nil =>
        intro post wname name hn _
        show scanFields ((name, GoVal.slice []) :: post) = .castError
        have hm : name ∈ tagAliases := by simpa using hn
        simp [scanFields, hm, foldSliceTags]
    | cons f rest ih =>
        intro post wname name hn hpre
        have hf : tagAliases.contains f.1 = false :=
          hpre f (List.mem_cons_self f rest)
        have hrest : ∀ g ∈ rest, tagAliases.contains g.1 = false :=
          fun g hg => hpre g (List.mem_cons_of_mem f hg)
        cases f with
        | mk fn fv =>
            show scanFields ((fn, fv) ::
              (rest ++ (name, GoVal.slice []) :: post)) = .castError
            have hfn : tagAliases.contains fn = false := hf
            simp only [scanFields, hfn, Bool.false_eq_true, if_false]
            exact ih post wname name hn hrest
  · intro wname m
    exact extractTags_map_resp wname m

/-- C4 witness: the empty slice under the TagList alias, reached past a
non-alias field, fails with the cast error. -/
theorem C4_empty_tags_error_witness :
    extractTags (.record [(("Output" : String),
      .record [(("ResponseMetadata" : String), GoVal.prim),
        (("TagList" : String), GoVal.slice [])])]) = .castError :=
  C4_empty_tags_error.1 [(("ResponseMetadata" : String), GoVal.prim)] []
    ("Output") ("TagList") (by decide) (by simp [tagAliases])

/-- C5 counterexample: two wrapper layers defeat extraction.  The engine
takes the first field's payload exactly once, so with a doubly wrapped
result record it scans the middle wrapper — which has no alias-named
field — and fails with "tags field not found" instead of reaching the
tags inside, refuting "unwraps through any number of wrapper layers". -/
theorem C5_wrapper_unwrap_counterexample :
    extractTags (.record [(("A" : String), .record [(("B" : String),
        .record [(("Tags" : String),
          GoVal.strMap [(("k" : String), ("v" : String))])])])]) =
      .noTagsField
    ∧ ExtractOutcome.noTagsField ≠
        .tags [(("k" : String), ("v" : String))] := by
  refine ⟨rfl, by decide⟩

/-- C5 (amended): before scanning, extraction strips any number of
pointer indirections, takes the payload of the response record's first
field — exactly one wrapper layer, whatever that field's name and
whatever wrapper fields follow it — strips pointer indirections again,
and scans the record so reached. -/
theorem C5_wrapper_unwrap :
    ∀ (n m : Nat) (wname : String) (rest fs : List (String × GoVal)),
      extractTags (ptrN n (.record ((wname, ptrN m (.record fs)) :: rest))) =
        scanFields fs := by
  intro n m wname rest fs
  have hrec : ∀ gs : List (String × GoVal),
      stripPtr (GoVal.record gs) = .record gs := fun _ => rfl
  have h1 : stripPtr (ptrN n
      (.record ((wname, ptrN m (.record fs)) :: rest))) =
      .record ((wname, ptrN m (.record fs)) :: rest) := by
    rw [stripPtr_ptrN, hrec]
  have h2 : stripPtr (ptrN m (.record fs)) = .record fs := by
    rw [stripPtr_ptrN, hrec]
  simp [extractTags, unwrapResponse, h1, h2]

end AwsTagReport
